import Mathlib

/-!
Shallow embedding of `src/main.rs` of the github-issues aggregator.

Strings are modelled as `List Char`; Rust byte-level operations on UTF-8
strings are modelled through `Char.utf8Size`.  A Rust function that can
panic is modelled as returning an `Option`, with `none` standing for the
panic (which aborts the run).
-/

/-- Rust `IssueStateJson` (the raw lifecycle state decoded from JSON). -/
inductive IssueStateJson
  | Open
  | Closed
deriving DecidableEq

/-- Rust `IssueState` (the derived triage state); the `derive(Ord)` order is
the declaration order: `Blocked < UnderReview < Open < Closed`. -/
inductive IssueState
  | Blocked
  | UnderReview
  | Open
  | Closed
deriving DecidableEq

/-- Numeric rank realising the `derive(Ord)` declaration order of `IssueState`. -/
def IssueState.toNat : IssueState → Nat
  | .Blocked => 0
  | .UnderReview => 1
  | .Open => 2
  | .Closed => 3

/-- Rust `state_a.cmp(&state_b)` on the derived `Ord` of `IssueState`. -/
def stateCmp (a b : IssueState) : Ordering :=
  compare a.toNat b.toNat

/-- Rust struct `PullRequest`. -/
structure PullRequest where
  url : List Char
  html_url : List Char
  diff_url : List Char
  patch_url : List Char
deriving DecidableEq

/-- Rust struct `Assignee`. -/
structure Assignee where
  login : List Char
deriving DecidableEq

/-- Rust struct `Milestone`. -/
structure Milestone where
  title : List Char
deriving DecidableEq

/-- Rust struct `Label`. -/
structure Label where
  name : List Char
deriving DecidableEq

/-- Rust struct `Issue`. -/
structure Issue where
  title : List Char
  html_url : List Char
  number : Nat
  repository_url : List Char
  pull_request : Option PullRequest
  assignee : Option Assignee
  milestone : Option Milestone
  labels : Option (List Label)
  state : IssueStateJson
  created_at : List Char
  closed_at : Option (List Char)
deriving DecidableEq

/-- Total UTF-8 byte length of a string (Rust `str::len`). -/
def utf8Len (l : List Char) : Nat :=
  (l.map Char.utf8Size).sum

/-- Rust byte slice `&d[..n]` on a UTF-8 string: returns the prefix of
characters occupying exactly the first `n` bytes, or `none` (panic) when
the string is shorter than `n` bytes or byte offset `n` falls inside a
multi-byte character. -/
def takeBytes : Nat → List Char → Option (List Char)
  | 0, _ => some []
  | _ + 1, [] => none
  | n + 1, c :: cs =>
    if c.utf8Size ≤ n + 1 then
      match takeBytes (n + 1 - c.utf8Size) cs with
      | some p => some (c :: p)
      | none => none
    else none

/-- Rust `strip_date`: `&d[..10]`, keeping only `yyyy-mm-dd`;
`none` models the slice panic. -/
def strip_date (d : List Char) : Option (List Char) :=
  takeBytes 10 d

/-- Rust `Issue::is_pull_request`. -/
def Issue.is_pull_request (i : Issue) : Bool :=
  i.pull_request.isSome

/-- The loop body of Rust `Issue::get_priority`: scan the labels in order,
returning on the first name matching `"P0"`..`"P5"`. -/
def priorityOfLabels : List Label → Option Nat
  | [] => none
  | l :: rest =>
    if l.name = "P0".toList then some 0
    else if l.name = "P1".toList then some 1
    else if l.name = "P2".toList then some 2
    else if l.name = "P3".toList then some 3
    else if l.name = "P4".toList then some 4
    else if l.name = "P5".toList then some 5
    else priorityOfLabels rest

/-- Rust `Issue::get_priority`. -/
def Issue.get_priority (i : Issue) : Option Nat :=
  match i.labels with
  | none => none
  | some ls => priorityOfLabels ls

/-- Rust `Issue::get_state`. -/
def Issue.get_state (i : Issue) : IssueState :=
  if i.state = IssueStateJson.Closed then IssueState.Closed
  else
    match i.labels with
    | some labels =>
      if labels.any (fun l => l.name = "under review".toList) then IssueState.UnderReview
      else if labels.any (fun l => l.name = "blocked".toList) then IssueState.Blocked
      else IssueState.Open
    | none => IssueState.Open

/-- Rust `Issue::get_created_at` (`strip_date` on the creation timestamp;
`none` models the panic). -/
def Issue.get_created_at (i : Issue) : Option (List Char) :=
  strip_date i.created_at

/-- Rust `Issue::get_closed_at`.  Outer `none` models the `strip_date`
panic; the inner option is the presence of a closing timestamp. -/
def Issue.get_closed_at (i : Issue) : Option (Option (List Char)) :=
  match i.closed_at with
  | none => some none
  | some d =>
    match strip_date d with
    | some s => some (some s)
    | none => none

/-- Rust `str` comparison (byte-wise lexicographic, which on UTF-8 equals
code-point lexicographic order). -/
def lexCmp : List Char → List Char → Ordering
  | [], [] => Ordering.eq
  | [], _ :: _ => Ordering.lt
  | _ :: _, [] => Ordering.gt
  | a :: as, b :: bs =>
    match compare a.toNat b.toNat with
    | Ordering.eq => lexCmp as bs
    | o => o

/-- Rust `Option<&str>` comparison: `None` sorts below `Some`. -/
def optLexCmp : Option (List Char) → Option (List Char) → Ordering
  | none, none => Ordering.eq
  | none, some _ => Ordering.lt
  | some _, none => Ordering.gt
  | some a, some b => lexCmp a b

/-- Splitting on a separator character, as Rust `str::split`: always
returns at least one (possibly empty) segment. -/
def splitSegs (sep : Char) : List Char → List (List Char)
  | [] => [[]]
  | c :: cs =>
    if c = sep then [] :: splitSegs sep cs
    else
      match splitSegs sep cs with
      | [] => [[c]]
      | s :: rest => (c :: s) :: rest

/-- First occurrence split: `splitFirst sep s = some (p, q)` when
`s = p ++ sep :: q` and `sep ∉ p`; `none` when `sep` does not occur. -/
def splitFirst (sep : Char) : List Char → Option (List Char × List Char)
  | [] => none
  | c :: cs =>
    if c = sep then some ([], cs)
    else (splitFirst sep cs).map (fun pq => (c :: pq.1, pq.2))

/-- Modelled from the spec: the parse result of the external URL library
(the `url` crate is an I/O-free collaborator whose code is not part of this
repository).  A hierarchical ("can be a base") URL has an authority and a
path beginning with `/`; a non-hierarchical URL (such as `mailto:`) has no
path segments. -/
structure Url where
  scheme : List Char
  host : List Char
  path : List Char
  isHierarchical : Bool
deriving DecidableEq

/-- Modelled from the spec: `Url::parse` of the external URL library.  A
well-formed absolute URL is an alphabetic scheme followed by `:`; when
`//` follows, the URL is hierarchical with a non-empty authority and a
path that always begins with `/` (an absent path is normalised to `/`);
otherwise the URL cannot be a base and exposes no path segments. -/
def parseUrl (s : List Char) : Option Url :=
  match splitFirst ':' s with
  | none => none
  | some (scheme, rest) =>
    if scheme = [] then none
    else if ¬ scheme.all Char.isAlpha then none
    else
      match rest with
      | '/' :: '/' :: rest2 =>
        let auth := rest2.takeWhile (fun c => c ≠ '/')
        let path := rest2.dropWhile (fun c => c ≠ '/')
        if auth = [] then none
        else some { scheme := scheme, host := auth,
                    path := if path = [] then ['/'] else path,
                    isHierarchical := true }
      | _ => some { scheme := scheme, host := [], path := rest, isHierarchical := false }

/-- Modelled from the spec: `Url::path_segments` — `None` for a URL that
cannot be a base, otherwise the `/`-separated segments of the path after
its leading `/`. -/
def Url.path_segments (u : Url) : Option (List (List Char)) :=
  if u.isHierarchical then some (splitSegs '/' (u.path.drop 1)) else none

/-- Rust `Issue::get_component`: parse the repository URL, take its path
segments and return the last one.  `none` models any of the three
`expect` panics. -/
def Issue.get_component (i : Issue) : Option (List Char) :=
  match parseUrl i.repository_url with
  | none => none
  | some url =>
    match url.path_segments with
    | none => none
    | some segs => segs.getLast?

/-- The comparator closure passed to `sorted_by` in Rust `get_all_issues`
(main.rs lines 252-289).  `none` models a panic inside the comparator
(malformed repository URL or timestamp). -/
def issueCmp (a b : Issue) : Option Ordering :=
  let state_a := a.get_state
  let state_b := b.get_state
  if state_a = IssueState.Closed then some Ordering.gt
  else if state_b = IssueState.Closed then some Ordering.lt
  else
    match a.get_priority, b.get_priority with
    | some _, none => some Ordering.lt
    | none, some _ => some Ordering.gt
    | some pa, some pb => some (compare pa pb)
    | none, none =>
      if state_a ≠ state_b then some (stateCmp state_a state_b)
      else if state_a = IssueState.Closed then
        match a.get_closed_at, b.get_closed_at with
        | some ca, some cb => some (optLexCmp cb ca)
        | _, _ => none
      else
        match a.get_component, b.get_component with
        | some comp_a, some comp_b =>
          let c := lexCmp comp_a comp_b
          if c = Ordering.lt ∨ c = Ordering.gt then some c
          else
            let c2 := compare a.number b.number
            if c2 = Ordering.lt ∨ c2 = Ordering.gt then some c2
            else some Ordering.eq
        | _, _ => none

/-- One insertion step of the stable comparator sort: place `x` (an
element originally to the left of everything in the already-sorted list)
before the first element it does not compare `Greater` to.  A comparator
panic (`issueCmp = none`) on any evaluated comparison aborts the sort,
exactly as a panicking comparator aborts Rust's `sorted_by`. -/
def insertIssue (x : Issue) : List Issue → Option (List Issue)
  | [] => some [x]
  | y :: ys =>
    match issueCmp x y with
    | none => none
    | some o =>
      if o = Ordering.gt then
        match insertIssue x ys with
        | none => none
        | some r => some (y :: r)
      else some (x :: y :: ys)

/-- The stable sort run by `sorted_by` in Rust `get_all_issues`, driven by
the comparator itself: any comparison the sort evaluates that panics
(`issueCmp = none`) aborts the whole sort (and with it the run), instead
of producing output. -/
def sortIssuesCmp : List Issue → Option (List Issue)
  | [] => some []
  | x :: rest =>
    match sortIssuesCmp rest with
    | none => none
    | some sorted => insertIssue x sorted

/-- The fetch loop of Rust `get_all_issues`: each element of the argument
is one repository's fetch result (`none` = fetch error, on which the Rust
code panics via `expect("failed to get issues")`); on success the pages
are appended in the order supplied. -/
def sequenceOptions : List (Option (List Issue)) → Option (List Issue)
  | [] => some []
  | o :: rest =>
    match o with
    | none => none
    | some is =>
      match sequenceOptions rest with
      | none => none
      | some tail => some (is ++ tail)

/-- Rust `get_all_issues`, with the network replaced by the list of
per-repository fetch results: concatenate, filter out pull requests, sort
with the comparator; `none` is the aborted run (a failed fetch, or a
comparator panic during the sort). -/
def getAllIssues (fetched : List (Option (List Issue))) : Option (List Issue) :=
  match sequenceOptions fetched with
  | none => none
  | some issues =>
    sortIssuesCmp (issues.filter (fun i => !i.is_pull_request))

/-! ### Spec-side definitions (written from the spec's words, for the
refinement claims about StateClassifier and PriorityExtractor) -/

/-- Whether the issue's (optional) label set contains a label with the
given literal name; an absent label set contains nothing. -/
def hasLabelNamed (i : Issue) (name : List Char) : Bool :=
  match i.labels with
  | none => false
  | some ls => ls.any (fun l => l.name = name)

/-- Spec-side StateClassifier, §4.2: first-match rules, in order —
raw `closed` wins; then the `"under review"` label; then `"blocked"`;
otherwise `Open`. -/
def specDerivedState (i : Issue) : IssueState :=
  if i.state = IssueStateJson.Closed then IssueState.Closed
  else if hasLabelNamed i ("under review".toList) then IssueState.UnderReview
  else if hasLabelNamed i ("blocked".toList) then IssueState.Blocked
  else IssueState.Open

/-- Spec-side priority encoding of a single label name: `"P0"`..`"P5"`
map to `0`..`5`, every other name encodes no priority. -/
def prioOfName (n : List Char) : Option Nat :=
  if n = "P0".toList then some 0
  else if n = "P1".toList then some 1
  else if n = "P2".toList then some 2
  else if n = "P3".toList then some 3
  else if n = "P4".toList then some 4
  else if n = "P5".toList then some 5
  else none

/-- Spec-side PriorityExtractor, §4.3: the priority encoded by the first
label (in the labels' given order) that encodes one; `none` on an absent
label set or when no label matches. -/
def specPriority (i : Issue) : Option Nat :=
  match i.labels with
  | none => none
  | some ls => ls.findSome? (fun l => prioOfName l.name)

/-! ### Helper lemmas -/

theorem utf8Len_nil : utf8Len [] = 0 := rfl

theorem utf8Len_cons (c : Char) (p : List Char) :
    utf8Len (c :: p) = c.utf8Size + utf8Len p := by
  simp [utf8Len]

/-- Soundness of the byte slice: a successful `takeBytes n` returns a
genuine prefix occupying exactly `n` bytes. -/
theorem takeBytes_eq_some (n : Nat) (d p : List Char)
    (h : takeBytes n d = some p) : ∃ q, d = p ++ q ∧ utf8Len p = n := by
  induction d generalizing n p with
  | nil =>
    cases n with
    | zero =>
      simp only [takeBytes, Option.some.injEq] at h
      exact ⟨[], by simp [← h, utf8Len_nil]⟩
    | succ m => simp [takeBytes] at h
  | cons c cs ih =>
    cases n with
    | zero =>
      simp only [takeBytes, Option.some.injEq] at h
      exact ⟨c :: cs, by simp [← h, utf8Len_nil]⟩
    | succ m =>
      simp only [takeBytes] at h
      split at h
      · rename_i hsz
        cases hrec : takeBytes (m + 1 - c.utf8Size) cs with
        | none => rw [hrec] at h; simp at h
        | some p' =>
          rw [hrec] at h
          simp only [Option.some.injEq] at h
          obtain ⟨q, hq, hlen⟩ := ih _ _ hrec
          refine ⟨q, by simp [← h, hq], ?_⟩
          rw [← h, utf8Len_cons, hlen]
          omega
      · simp at h

/-- Completeness of the byte slice: a prefix occupying exactly `n` bytes
is returned by `takeBytes n`. -/
theorem takeBytes_append (p q : List Char) :
    takeBytes (utf8Len p) (p ++ q) = some p := by
  induction p with
  | nil => simp [takeBytes, utf8Len_nil]
  | cons c p' ih =>
    have hpos : 0 < c.utf8Size := c.utf8Size_pos
    have hsum : utf8Len (c :: p') = (c.utf8Size + utf8Len p' - 1) + 1 := by
      rw [utf8Len_cons]; omega
    rw [hsum]
    simp only [List.cons_append, takeBytes]
    have hle : c.utf8Size ≤ c.utf8Size + utf8Len p' - 1 + 1 := by omega
    rw [if_pos hle]
    have harith : c.utf8Size + utf8Len p' - 1 + 1 - c.utf8Size = utf8Len p' := by omega
    simp only [List.append_eq]
    rw [harith, ih]

/-- On an all-ASCII string the byte slice is exactly the character-count
slice: it succeeds precisely on inputs of length at least `n` and then
returns the `n`-character prefix. -/
theorem takeBytes_ascii (d : List Char) (n : Nat)
    (h : ∀ c ∈ d, c.utf8Size = 1) :
    takeBytes n d = if n ≤ d.length then some (d.take n) else none := by
  induction d generalizing n with
  | nil =>
    cases n with
    | zero => simp [takeBytes]
    | succ m => simp [takeBytes]
  | cons c cs ih =>
    cases n with
    | zero => simp [takeBytes]
    | succ m =>
      have hc : c.utf8Size = 1 := h c (by simp)
      simp only [takeBytes, hc]
      rw [if_pos (by omega)]
      have hm : m + 1 - 1 = m := by omega
      rw [hm, ih m (fun x hx => h x (by simp [hx]))]
      by_cases hlen : m ≤ cs.length
      · rw [if_pos hlen, if_pos (by simp; omega)]
        simp
      · rw [if_neg hlen, if_neg (by simp; omega)]

/-- `splitSegs` never returns the empty list of segments. -/
theorem splitSegs_ne_nil (sep : Char) : ∀ l : List Char, splitSegs sep l ≠ []
  | [] => by simp [splitSegs]
  | c :: cs => by
    simp only [splitSegs]
    split
    · simp
    · split <;> simp

/-- One step of the scan loop of `get_priority`, phrased through the
spec-side per-label encoding. -/
theorem priorityOfLabels_cons (l : Label) (rest : List Label) :
    priorityOfLabels (l :: rest) =
      match prioOfName l.name with
      | some p => some p
      | none => priorityOfLabels rest := by
  simp only [priorityOfLabels, prioOfName]
  split_ifs <;> rfl

/-- The scan loop of `get_priority` is the first-match extraction the spec
describes. -/
theorem priorityOfLabels_eq_findSome (ls : List Label) :
    priorityOfLabels ls = ls.findSome? (fun l => prioOfName l.name) := by
  induction ls with
  | nil => rfl
  | cons l rest ih =>
    rw [priorityOfLabels_cons, List.findSome?_cons]
    cases prioOfName l.name <;> simp [ih]

/-- `get_state` agrees with the spec-side StateClassifier on every issue. -/
theorem get_state_eq_spec (i : Issue) : i.get_state = specDerivedState i := by
  obtain ⟨t, hu, n, r, pr, asg, ms, lb, st, ca, cl⟩ := i
  simp only [Issue.get_state, specDerivedState, hasLabelNamed]
  cases lb <;> cases st <;> simp

theorem sequenceOptions_map_some (ls : List (List Issue)) :
    sequenceOptions (ls.map some) = some ls.flatten := by
  induction ls with
  | nil => rfl
  | cons l rest ih => simp [sequenceOptions, ih]

/-- A successful insertion step permutes the inserted element into the
list. -/
theorem insertIssue_perm (x : Issue) :
    ∀ l r, insertIssue x l = some r → r.Perm (x :: l)
  | [], r, h => by
    simp only [insertIssue, Option.some.injEq] at h
    rw [← h]
  | y :: ys, r, h => by
    simp only [insertIssue] at h
    cases hc : issueCmp x y with
    | none => rw [hc] at h; simp at h
    | some o =>
      simp only [hc] at h
      by_cases ho : o = Ordering.gt
      · rw [if_pos ho] at h
        cases hr : insertIssue x ys with
        | none => simp [hr] at h
        | some r' =>
          simp only [hr, Option.some.injEq] at h
          rw [← h]
          exact ((insertIssue_perm x ys r' hr).cons y).trans (List.Perm.swap x y ys)
      · rw [if_neg ho] at h
        simp only [Option.some.injEq] at h
        rw [← h]

/-- A successful comparator sort is a permutation of its input. -/
theorem sortIssuesCmp_perm :
    ∀ l r, sortIssuesCmp l = some r → r.Perm l
  | [], r, h => by
    simp only [sortIssuesCmp, Option.some.injEq] at h
    rw [← h]
  | x :: rest, r, h => by
    simp only [sortIssuesCmp] at h
    cases hs : sortIssuesCmp rest with
    | none => rw [hs] at h; simp at h
    | some sorted =>
      rw [hs] at h
      exact (insertIssue_perm x sorted r h).trans
        ((sortIssuesCmp_perm rest sorted hs).cons x)

theorem sequenceOptions_eq_none_iff (l : List (Option (List Issue))) :
    sequenceOptions l = none ↔ none ∈ l := by
  induction l with
  | nil => simp [sequenceOptions]
  | cons o rest ih =>
    cases o with
    | none => simp [sequenceOptions]
    | some is =>
      simp only [sequenceOptions]
      cases hs : sequenceOptions rest with
      | none => simp [List.mem_cons, ← ih, hs]
      | some tail => simp [List.mem_cons, ← ih, hs]

/-! ### Concrete test issues -/

/-- A template issue for concrete inputs; fields irrelevant to a claim
keep these defaults. -/
def mkIssue (number : Nat) (labels : Option (List Label)) (state : IssueStateJson)
    (closed_at : Option (List Char)) : Issue where
  title := "title".toList
  html_url := "https://github.com/owner/alpha/issues/1".toList
  number := number
  repository_url := "https://api.github.com/repos/owner/alpha".toList
  pull_request := none
  assignee := none
  milestone := none
  labels := labels
  state := state
  created_at := "2021-03-05T12:00:00Z".toList
  closed_at := closed_at

def closedPairA : Issue :=
  mkIssue 1 none IssueStateJson.Closed (some "2020-01-01T00:00:00Z".toList)

def closedPairB : Issue :=
  mkIssue 2 none IssueStateJson.Closed (some "2020-05-01T00:00:00Z".toList)

def closedJanIssue : Issue :=
  mkIssue 3 none IssueStateJson.Closed (some "2022-01-01T00:00:00Z".toList)

def closedJuneIssue : Issue :=
  mkIssue 4 none IssueStateJson.Closed (some "2022-06-01T00:00:00Z".toList)

def openP0Issue : Issue :=
  mkIssue 5 (some [{ name := "P0".toList }]) IssueStateJson.Open none

def blockedNoPrioIssue : Issue :=
  mkIssue 6 (some [{ name := "blocked".toList }]) IssueStateJson.Open none

def bothLabelsIssue : Issue :=
  mkIssue 7 (some [{ name := "under review".toList }, { name := "blocked".toList }])
    IssueStateJson.Open none

def closedLabeledIssue : Issue :=
  mkIssue 8 (some [{ name := "blocked".toList }, { name := "under review".toList }])
    IssueStateJson.Closed none

def p2p0Issue : Issue :=
  mkIssue 9 (some [{ name := "P2".toList }, { name := "P0".toList }, { name := "other".toList }])
    IssueStateJson.Open none

def otherLabelIssue : Issue :=
  mkIssue 10 (some [{ name := "other".toList }]) IssueStateJson.Open none

def noLabelsIssue : Issue :=
  mkIssue 11 none IssueStateJson.Open none

def componentIssue : Issue :=
  mkIssue 12 none IssueStateJson.Open none

def prPipelineIssue : Issue :=
  { mkIssue 13 none IssueStateJson.Open none with
    pull_request := some { url := "u".toList, html_url := "h".toList,
                           diff_url := "d".toList, patch_url := "p".toList } }

/-! ### Claim theorems -/

/-- C1: the claim states the comparator is a strict weak ordering,
consistent on every pair — in particular on pairs of `Closed` issues.
The code violates this: whenever the first argument's derived state is
`Closed` the comparator returns `Greater`, so for two `Closed` issues it
declares each to sort after the other in both argument orders, and the
closing-date branch written for this case (main.rs line 274) is
unreachable.  This theorem evaluates the comparator at such a failing
input. -/
theorem c1_comparator_inconsistent_on_closed_pairs :
    closedPairA.get_state = IssueState.Closed
    ∧ closedPairB.get_state = IssueState.Closed
    ∧ issueCmp closedPairA closedPairB = some Ordering.gt
    ∧ issueCmp closedPairB closedPairA = some Ordering.gt := by
  decide

/-- C2: the claim states two `Closed` issues are ordered by normalized
closing date descending.  The code never reaches that rule: the closed
check returns `Greater` as soon as the first argument is `Closed`, so the
pair closed in January and the pair closed in June compare `Greater` in
both orders, irrespective of their (correctly normalized) closing dates. -/
theorem c2_closed_recency_unreachable :
    closedJanIssue.get_state = IssueState.Closed
    ∧ closedJuneIssue.get_state = IssueState.Closed
    ∧ closedJanIssue.get_closed_at = some (some "2022-01-01".toList)
    ∧ closedJuneIssue.get_closed_at = some (some "2022-06-01".toList)
    ∧ issueCmp closedJuneIssue closedJanIssue = some Ordering.gt
    ∧ issueCmp closedJanIssue closedJuneIssue = some Ordering.gt := by
  decide

/-- C3: for non-`Closed` issues, a declared priority on the left and none
on the right yields `Less` before any state comparison; in particular the
`Open` issue with priority 0 sorts before the `Blocked` issue with no
declared priority. -/
theorem c3_priority_before_state :
    (∀ a b : Issue,
        a.get_state ≠ IssueState.Closed → b.get_state ≠ IssueState.Closed →
        (a.get_priority).isSome = true → b.get_priority = none →
        issueCmp a b = some Ordering.lt)
    ∧ openP0Issue.get_state = IssueState.Open
    ∧ openP0Issue.get_priority = some 0
    ∧ blockedNoPrioIssue.get_state = IssueState.Blocked
    ∧ blockedNoPrioIssue.get_priority = none
    ∧ issueCmp openP0Issue blockedNoPrioIssue = some Ordering.lt := by
  refine ⟨?_, by decide, by decide, by decide, by decide, by decide⟩
  intro a b ha hb hpa hpb
  obtain ⟨p, hp⟩ := Option.isSome_iff_exists.mp hpa
  simp [issueCmp, ha, hb, hp, hpb]

theorem c3_priority_before_state_witness :
    issueCmp openP0Issue blockedNoPrioIssue = some Ordering.lt :=
  c3_priority_before_state.1 openP0Issue blockedNoPrioIssue
    (by decide) (by decide) (by decide) (by decide)

/-- C4: when exactly one of the two issues is derived `Closed`, the closed
one sorts after the other, whatever every other field holds — the closed
check is the first rule and returns immediately. -/
theorem c4_closed_last :
    ∀ a b : Issue,
      (a.get_state = IssueState.Closed → b.get_state ≠ IssueState.Closed →
        issueCmp a b = some Ordering.gt)
      ∧ (a.get_state ≠ IssueState.Closed → b.get_state = IssueState.Closed →
        issueCmp a b = some Ordering.lt) := by
  intro a b
  constructor
  · intro h1 _h2
    simp [issueCmp, h1]
  · intro h1 h2
    simp [issueCmp, h1, h2]

theorem c4_closed_last_witness :
    issueCmp (mkIssue 20 none IssueStateJson.Closed none)
        (mkIssue 21 none IssueStateJson.Open none) = some Ordering.gt
    ∧ issueCmp (mkIssue 21 none IssueStateJson.Open none)
        (mkIssue 20 none IssueStateJson.Closed none) = some Ordering.lt :=
  ⟨(c4_closed_last (mkIssue 20 none IssueStateJson.Closed none)
      (mkIssue 21 none IssueStateJson.Open none)).1 (by decide) (by decide),
   (c4_closed_last (mkIssue 21 none IssueStateJson.Open none)
      (mkIssue 20 none IssueStateJson.Closed none)).2 (by decide) (by decide)⟩

/-- C5: the derived state is computed by the spec's first-match rules in
the stated order; an open issue carrying both the "under review" and
"blocked" labels classifies as `UnderReview`, and a closed issue carrying
both labels classifies as `Closed` regardless of label content. -/
theorem c5_state_classifier :
    (∀ i : Issue, i.get_state = specDerivedState i)
    ∧ bothLabelsIssue.get_state = IssueState.UnderReview
    ∧ closedLabeledIssue.get_state = IssueState.Closed :=
  ⟨get_state_eq_spec, by decide, by decide⟩

/-- C6: the derived priority is the first-match extraction over the labels
in their given order; `["P2","P0","other"]` yields `some 2`, `["other"]`
and an absent label set yield `none`. -/
theorem c6_priority_extractor :
    (∀ i : Issue, i.get_priority = specPriority i)
    ∧ p2p0Issue.get_priority = some 2
    ∧ otherLabelIssue.get_priority = none
    ∧ noLabelsIssue.get_priority = none := by
  refine ⟨?_, by decide, by decide, by decide⟩
  intro i
  simp only [Issue.get_priority, specPriority]
  cases i.labels with
  | none => rfl
  | some ls => exact priorityOfLabels_eq_findSome ls

/-- C7 counterexample: the claim says DateNormalizer fails exactly when
the input is shorter than 10 characters.  On the 5-character input
`"ééééé"` (10 UTF-8 bytes) it should therefore fail, but `strip_date`
succeeds — and returns the whole 5-character string rather than a
10-character prefix. -/
theorem c7_counterexample :
    "ééééé".toList.length < 10
    ∧ strip_date "ééééé".toList = some "ééééé".toList := by
  decide

/-- C7 (amended): DateNormalizer returns the prefix of its input that
occupies exactly the first 10 UTF-8 bytes — for all-ASCII input the
10-character prefix, succeeding exactly on inputs of at least 10
characters — and fails exactly when no character prefix occupies exactly
10 bytes; an absent closing timestamp maps to an absent normalized
value. -/
theorem c7_date_normalizer_bytes :
    (∀ d : List Char, (∀ c ∈ d, c.utf8Size = 1) →
        strip_date d = if 10 ≤ d.length then some (d.take 10) else none)
    ∧ (∀ d p : List Char, strip_date d = some p → ∃ q, d = p ++ q ∧ utf8Len p = 10)
    ∧ (∀ p q : List Char, utf8Len p = 10 → strip_date (p ++ q) = some p)
    ∧ strip_date "2021-03-05T12:00:00Z".toList = some "2021-03-05".toList
    ∧ (∀ i : Issue, i.closed_at = none → i.get_closed_at = some none) := by
  refine ⟨?_, ?_, ?_, by decide, ?_⟩
  · intro d h
    exact takeBytes_ascii d 10 h
  · intro d p h
    exact takeBytes_eq_some 10 d p h
  · intro p q h
    rw [strip_date, ← h]
    exact takeBytes_append p q
  · intro i h
    simp [Issue.get_closed_at, h]

theorem c7_date_normalizer_bytes_witness :
    strip_date "2021-03-05T12:00:00Z".toList
      = if 10 ≤ "2021-03-05T12:00:00Z".toList.length
        then some ("2021-03-05T12:00:00Z".toList.take 10) else none :=
  c7_date_normalizer_bytes.1 "2021-03-05T12:00:00Z".toList (by decide)

/-- C10: DateNormalizer truncates by bytes, not characters — this input
has 14 characters (at least 10), its first 9 characters occupy 9 bytes
while its first 10 occupy 11 bytes (byte offset 10 falls inside the
two-byte `é`), and the operation fails on it. -/
theorem c10_byte_truncation :
    10 ≤ "aaaaaaaaaé2345".toList.length
    ∧ utf8Len ("aaaaaaaaaé2345".toList.take 9) = 9
    ∧ utf8Len ("aaaaaaaaaé2345".toList.take 10) = 11
    ∧ strip_date "aaaaaaaaaé2345".toList = none := by
  decide

/-- C8: `get_component` returns the final path segment of the repository
identifier URL, fails exactly when the identifier does not parse or the
URL exposes no path segments, and succeeds on every well-formed
hierarchical URL — the segment list of such a URL is never empty, so the
final `last()` lookup cannot fail. -/
theorem c8_component_resolver :
    ∀ i : Issue,
      (∀ u : Url, parseUrl i.repository_url = some u → u.isHierarchical = true →
          i.get_component = (splitSegs '/' (u.path.drop 1)).getLast?
          ∧ (i.get_component).isSome = true)
      ∧ (parseUrl i.repository_url = none → i.get_component = none)
      ∧ (∀ u : Url, parseUrl i.repository_url = some u → u.isHierarchical = false →
          i.get_component = none) := by
  intro i
  refine ⟨?_, ?_, ?_⟩
  · intro u hu hh
    have hseg : u.path_segments = some (splitSegs '/' (u.path.drop 1)) := by
      simp [Url.path_segments, hh]
    constructor
    · simp [Issue.get_component, hu, hseg]
    · simp only [Issue.get_component, hu, hseg, List.getLast?_isSome]
      exact splitSegs_ne_nil '/' _
  · intro hu
    simp [Issue.get_component, hu]
  · intro u hu hh
    have hseg : u.path_segments = none := by
      simp [Url.path_segments, hh]
    simp [Issue.get_component, hu, hseg]

theorem c8_component_resolver_witness :
    componentIssue.get_component
        = (splitSegs '/' (("/repos/owner/alpha".toList).drop 1)).getLast?
    ∧ (componentIssue.get_component).isSome = true :=
  (c8_component_resolver componentIssue).1
    { scheme := "https".toList, host := "api.github.com".toList,
      path := "/repos/owner/alpha".toList, isHierarchical := true }
    (by decide) rfl

/-- C9: the pipeline concatenates the per-repository fetch results in the
order supplied, drops every pull-request record before ranking, runs the
comparator sort on the remainder (which aborts the run, like the Rust
comparator's panics, on a comparison that fails), produces no output at
all when any fetch fails, and any output it does emit is a pull-request
free permutation of the filtered concatenation. -/
theorem c9_pipeline (fetched : List (Option (List Issue))) :
    (∀ ls : List (List Issue), fetched = ls.map some →
        getAllIssues fetched
          = sortIssuesCmp (ls.flatten.filter (fun i => !i.is_pull_request)))
    ∧ (none ∈ fetched → getAllIssues fetched = none)
    ∧ (∀ out, getAllIssues fetched = some out →
        (∀ i ∈ out, i.is_pull_request = false)
        ∧ ∃ issues, sequenceOptions fetched = some issues
            ∧ out.Perm (issues.filter (fun i => !i.is_pull_request))) := by
  refine ⟨?_, ?_, ?_⟩
  · intro ls hls
    subst hls
    rw [getAllIssues, sequenceOptions_map_some]
  · intro h
    rw [getAllIssues, (sequenceOptions_eq_none_iff fetched).mpr h]
  · intro out hout
    rw [getAllIssues] at hout
    cases hs : sequenceOptions fetched with
    | none => rw [hs] at hout; exact absurd hout (by simp)
    | some issues =>
      rw [hs] at hout
      have hperm := sortIssuesCmp_perm _ out hout
      refine ⟨?_, issues, rfl, hperm⟩
      intro i hi
      have hf := (List.mem_filter.mp (hperm.mem_iff.mp hi)).2
      simpa using hf

theorem c9_pipeline_witness :
    getAllIssues [some [openP0Issue], some [blockedNoPrioIssue, prPipelineIssue]]
      = some [openP0Issue, blockedNoPrioIssue] := by
  have h := (c9_pipeline [some [openP0Issue], some [blockedNoPrioIssue, prPipelineIssue]]).1
      [[openP0Issue], [blockedNoPrioIssue, prPipelineIssue]] rfl
  rw [h]
  decide
